import Mathlib

/-!
# Verification of the CRISP-DM sales-analysis pipeline

Shallow embedding of `src/sales_analysis.py` (pandas batch pipeline):
KPI aggregation, ABC product classification, and RFM scoring/segmentation.

Modelling conventions:
* A transaction row keeps the columns the analytical pipeline reads
  (`Sale_Date`, `Sale_ID`, `Customer`, `Product`, `Amount`, `Total_Sale`);
  the remaining columns of the 13-column input are never touched by the
  computations under verification.
* Dates are rationals counting days (fractions model time-of-day);
  `Timedelta.days` is `Int.floor` of the difference in days.
* Exact values are rationals.  pandas/numpy float division by zero does not
  raise: it produces `inf`/`-inf`/`NaN` (with only a warning), and `NaN`
  compares `False` under `<=`.  The type `PFloat` models exactly this
  value-or-special-float behaviour where it can arise (`Revenue_Pct`,
  `Cum_Pct`, the mean of an empty column).
* `pd.qcut(..., duplicates := "drop")` with an explicit label list raises
  `ValueError` when deduplicated bin edges do not leave one bin per label;
  `pd.cut` with integer bin count builds equal-width edges over the value
  range (left edge nudged below the minimum).  Both are embedded below with
  linear-interpolation quantiles, exactly as pandas computes them.
-/

namespace SalesAnalysis

/-- One transaction row of the input table, restricted to the columns read
by the pipeline.  `saleDate` is in days (possibly fractional). -/
structure Txn where
  saleDate : ℚ
  saleId : ℕ
  customer : String
  product : String
  amount : ℚ
  totalSale : ℚ
deriving DecidableEq

/-- pandas float semantics: a finite rational, `NaN`, `+inf` or `-inf`. -/
inductive PFloat where
  | val (q : ℚ)
  | nan
  | pinf
  | ninf
deriving DecidableEq

/-- Float division `a / b`: division by zero silently yields `NaN` (0/0)
or a signed infinity, never an exception (numpy emits only a warning). -/
def pdiv (a b : ℚ) : PFloat :=
  if b = 0 then
    if a = 0 then .nan else if 0 < a then .pinf else .ninf
  else .val (a / b)

/-- Multiplication of a float by a (nonzero) rational constant. -/
def pmulC (x : PFloat) (c : ℚ) : PFloat :=
  match x with
  | .val q => .val (q * c)
  | .nan => .nan
  | .pinf => if 0 < c then .pinf else if c = 0 then .nan else .ninf
  | .ninf => if 0 < c then .ninf else if c = 0 then .nan else .pinf

/-- Float addition with `NaN` propagation and `inf + -inf = NaN`. -/
def padd : PFloat → PFloat → PFloat
  | .nan, _ => .nan
  | _, .nan => .nan
  | .pinf, .ninf => .nan
  | .ninf, .pinf => .nan
  | .pinf, _ => .pinf
  | _, .pinf => .pinf
  | .ninf, _ => .ninf
  | _, .ninf => .ninf
  | .val a, .val b => .val (a + b)

/-- Float `<=` against a rational constant: any comparison with `NaN` is
`False`. -/
def pLeC (x : PFloat) (c : ℚ) : Bool :=
  match x with
  | .val q => decide (q ≤ c)
  | .nan => false
  | .pinf => false
  | .ninf => true

/-- Float `<=` between two floats (IEEE-754 ordering, `NaN` incomparable). -/
def pLe : PFloat → PFloat → Bool
  | .nan, _ => false
  | _, .nan => false
  | .ninf, _ => true
  | _, .pinf => true
  | .pinf, _ => false
  | .val _, .ninf => false
  | .val a, .val b => decide (a ≤ b)

/-- Maximum of a nonempty rational list (pandas `max`); `0` on `[]`. -/
def listMax : List ℚ → ℚ
  | [] => 0
  | x :: xs => xs.foldl max x

/-- Running cumulative sum of rationals (`Series.cumsum`). -/
def cumsumQ (acc : ℚ) : List ℚ → List ℚ
  | [] => []
  | x :: xs => (acc + x) :: cumsumQ (acc + x) xs

/-- Running cumulative sum of floats (`Series.cumsum` with specials). -/
def cumsumP (acc : PFloat) : List PFloat → List PFloat
  | [] => []
  | x :: xs => (padd acc x) :: cumsumP (padd acc x) xs

/-! ## KPI aggregator -/

/-- `total_sales = df["Total_Sale"].sum()`. -/
def total_sales (d : List Txn) : ℚ := (d.map (·.totalSale)).sum

/-- `transactions = len(df)`. -/
def transactions (d : List Txn) : ℕ := d.length

/-- `avg_ticket = df["Total_Sale"].mean()` (`NaN` on an empty frame). -/
def avg_ticket (d : List Txn) : PFloat := pdiv (total_sales d) (d.length : ℚ)

/-- `unique_customers = df["Customer"].nunique()`. -/
def unique_customers (d : List Txn) : ℕ := (d.map (·.customer)).dedup.length

/-- Proleptic-Gregorian `(year, month, day)` of a day number
(days since 1970-01-01); used for `Sale_Date.dt.to_period("M")`. -/
def civilFromDays (z : ℤ) : ℤ × ℤ × ℤ :=
  let z' := z + 719468
  let era := Int.fdiv z' 146097
  let doe := z' - era * 146097
  let yoe := Int.fdiv (doe - Int.fdiv doe 1460 + Int.fdiv doe 36524 - Int.fdiv doe 146096) 365
  let y := yoe + era * 400
  let doy := doe - (365 * yoe + Int.fdiv yoe 4 - Int.fdiv yoe 100)
  let mp := Int.fdiv (5 * doy + 2) 153
  let dd := doy - Int.fdiv (153 * mp + 2) 5 + 1
  let m := if mp < 10 then mp + 3 else mp - 9
  (if 10 ≤ mp then y + 1 else y, m, dd)

/-- Calendar month period of a transaction (`dt.to_period("M")`). -/
def monthKey (t : Txn) : ℤ × ℤ :=
  let c := civilFromDays (Int.floor t.saleDate)
  (c.1, c.2.1)

/-- Insert into a list of month keys kept in chronological order. -/
def insertMonth (k : ℤ × ℤ) : List (ℤ × ℤ) → List (ℤ × ℤ)
  | [] => [k]
  | y :: ys =>
    if k.1 < y.1 ∨ (k.1 = y.1 ∧ k.2 ≤ y.2) then k :: y :: ys
    else y :: insertMonth k ys

/-- Chronological sort of month keys (`groupby` orders period keys). -/
def sortMonths : List (ℤ × ℤ) → List (ℤ × ℤ)
  | [] => []
  | k :: ks => insertMonth k (sortMonths ks)

/-- `monthly_sales = df.groupby(Sale_Date.to_period("M"))["Total_Sale"].sum()`. -/
def monthly_sales (d : List Txn) : List ((ℤ × ℤ) × ℚ) :=
  (sortMonths (d.map monthKey).dedup).map (fun k =>
    (k, ((d.filter (fun t => monthKey t = k)).map (·.totalSale)).sum))

/-! ## ABC classifier -/

/-- One row of the per-product aggregate table. -/
structure ProductRow where
  product : String
  numSales : ℕ
  unitsSold : ℚ
  revenue : ℚ
deriving DecidableEq

/-- `df.groupby("Product").agg(Num_Sales, Units_Sold, Revenue)`. -/
def productAgg (d : List Txn) : List ProductRow :=
  (d.map (·.product)).dedup.map (fun p =>
    let g := d.filter (fun t => t.product = p)
    { product := p
      numSales := g.length
      unitsSold := (g.map (·.amount)).sum
      revenue := (g.map (·.totalSale)).sum })

/-- Insertion step of the descending-by-revenue sort. -/
def insertByRev (x : ProductRow) : List ProductRow → List ProductRow
  | [] => [x]
  | y :: ys => if y.revenue < x.revenue then x :: y :: ys else y :: insertByRev x ys

/-- `.sort_values("Revenue", ascending := False)`. -/
def sortByRevDesc : List ProductRow → List ProductRow
  | [] => []
  | x :: xs => insertByRev x (sortByRevDesc xs)

/-- The `products` table: per-product aggregates sorted descending by revenue. -/
def products (d : List Txn) : List ProductRow :=
  sortByRevDesc (productAgg d)

/-- `products["Revenue"].sum()`. -/
def totalRevenue (d : List Txn) : ℚ := ((products d).map (·.revenue)).sum

/-- `products["Revenue_Pct"] = products["Revenue"] / products["Revenue"].sum() * 100`
— float division, so a zero total silently yields `NaN`/`inf` entries. -/
def revenuePct (d : List Txn) : List PFloat :=
  (products d).map (fun p => pmulC (pdiv p.revenue (totalRevenue d)) 100)

/-- `products["Cum_Pct"] = products["Revenue_Pct"].cumsum()`. -/
def cumPct (d : List Txn) : List PFloat :=
  cumsumP (.val 0) (revenuePct d)

/-- `lambda x: "A" if x <= 80 else "B" if x <= 95 else "C"` (a `NaN`
cumulative percentage fails both tests and lands in `"C"`). -/
def abcCategory (x : PFloat) : String :=
  if pLeC x 80 then "A" else if pLeC x 95 then "B" else "C"

/-- One row of the final product table with percentage columns. -/
structure AbcRow where
  product : String
  revenue : ℚ
  pct : PFloat
  cum : PFloat
  category : String
deriving DecidableEq

/-- The product table after the `Revenue_Pct`, `Cum_Pct` and `ABC_Category`
column assignments. -/
def abcTable (d : List Txn) : List AbcRow :=
  let ps := products d
  let pcts := revenuePct d
  let cums := cumPct d
  (List.range ps.length).map (fun i =>
    let p := ps.getD i ⟨"", 0, 0, 0⟩
    let c := cums.getD i .nan
    { product := p.product
      revenue := p.revenue
      pct := pcts.getD i .nan
      cum := c
      category := abcCategory c })

/-! ## RFM engine -/

/-- One row of the per-customer `Recency`/`Frequency`/`Monetary` aggregate. -/
structure RfmRow where
  customer : String
  recency : ℤ
  frequency : ℕ
  monetary : ℚ
deriving DecidableEq

/-- `reference_date = df["Sale_Date"].max() + pd.Timedelta(days := 1)`. -/
def reference_date (d : List Txn) : ℚ := listMax (d.map (·.saleDate)) + 1

/-- `df.groupby("Customer").agg(Recency, Frequency, Monetary)`;
`Recency = (reference_date - x.max()).days` and `Timedelta.days` floors. -/
def rfmBase (d : List Txn) : List RfmRow :=
  (d.map (·.customer)).dedup.map (fun c =>
    let g := d.filter (fun t => t.customer = c)
    { customer := c
      recency := Int.floor (reference_date d - listMax (g.map (·.saleDate)))
      frequency := g.length
      monetary := (g.map (·.totalSale)).sum })

/-- Ascending insertion sort step for the quantile computation. -/
def insertAsc (x : ℚ) : List ℚ → List ℚ
  | [] => [x]
  | y :: ys => if x ≤ y then x :: y :: ys else y :: insertAsc x ys

/-- Ascending sort of a rational series. -/
def sortAsc : List ℚ → List ℚ
  | [] => []
  | x :: xs => insertAsc x (sortAsc xs)

/-- Linear-interpolation quantile of a sorted nonempty list (numpy default):
position `q * (n-1)`, interpolate between the neighbouring order statistics. -/
def quantile (sv : List ℚ) (q : ℚ) : ℚ :=
  let n := sv.length
  let pos := q * ((n : ℚ) - 1)
  let i := (Int.floor pos).toNat
  let a := sv.getD (min i (n - 1)) 0
  let b := sv.getD (min (i + 1) (n - 1)) 0
  a + (pos - (i : ℚ)) * (b - a)

/-- The six 5-quantile bin edges `q = 0, 0.2, 0.4, 0.6, 0.8, 1` of a series. -/
def qcutEdges (s : List ℚ) : List ℚ :=
  ([0, 1/5, 2/5, 3/5, 4/5, 1] : List ℚ).map (quantile (sortAsc s))

/-- Assign a value to right-closed bins `(lo, hi]` walking the edge list;
`incl` marks the first bin, which also contains values equal to its left
edge (`include_lowest`).  Returns the matching label, `none` if unbinned. -/
def assignBins (incl : Bool) (lo : ℚ) (edges : List ℚ) (labels : List ℕ) (x : ℚ) :
    Option ℕ :=
  match edges, labels with
  | hi :: es, l :: ls =>
    if (incl && decide (x = lo)) || (decide (lo < x) && decide (x ≤ hi)) then some l
    else assignBins false hi es ls x
  | _, _ => none

/-- Bin every value of a series against an edge list. -/
def binValues (edges : List ℚ) (labels : List ℕ) (incl : Bool) (s : List ℚ) :
    List (Option ℕ) :=
  match edges with
  | [] => s.map (fun _ => none)
  | e0 :: rest => s.map (assignBins incl e0 rest labels)

/-- `pd.qcut(series, 5, labels, duplicates := "drop")`: compute quantile
edges, drop duplicate edges, and raise `ValueError` when the remaining bins
do not match the label count; otherwise bin with `include_lowest`. -/
def qcut (s : List ℚ) (labels : List ℕ) : Except String (List (Option ℕ)) :=
  if s = [] then .ok [] else
  if labels.length ≠ (qcutEdges s).dedup.length - 1 then
    .error "Bin labels must be one fewer than the number of bin edges"
  else .ok (binValues ((qcutEdges s).dedup) labels true s)

/-- The six equal-width edges of `pd.cut(series, 5)`: linspace over the
value range, left edge nudged below the minimum (0.1% of range, or an
absolute/relative 0.001 adjustment when the range is degenerate). -/
def cutEdges (s : List ℚ) : List ℚ :=
  let mn := listMax (s.map (fun x => -x)) * (-1)
  let mx := listMax s
  if mn = mx then
    let mn' := mn - (if mn = 0 then 1/1000 else |mn| / 1000)
    let mx' := mx + (if mx = 0 then 1/1000 else |mx| / 1000)
    (List.range 6).map (fun i => mn' + (mx' - mn') * i / 5)
  else
    match (List.range 6).map (fun i => mn + (mx - mn) * i / 5) with
    | [] => []
    | e0 :: rest => (e0 - (mx - mn) / 1000) :: rest

/-- `pd.cut(series, 5, labels)`: equal-width binning over the value range. -/
def cut (s : List ℚ) (labels : List ℕ) : List (Option ℕ) :=
  if s = [] then [] else binValues (cutEdges s) labels false s

/-- The label list of `rfm_score`: `[5,4,3,2,1]` when `ascending` (Recency),
`[1,2,3,4,5]` otherwise (Frequency/Monetary). -/
def scoreLabels (ascending : Bool) : List ℕ :=
  if ascending then [5, 4, 3, 2, 1] else [1, 2, 3, 4, 5]

/-- `rfm_score`: try `pd.qcut`; on `ValueError` fall back to `pd.cut` over
the same series with the same labels. -/
def rfm_score (series : List ℚ) (ascending : Bool) : List (Option ℕ) :=
  match qcut series (scoreLabels ascending) with
  | .ok r => r
  | .error _ => cut series (scoreLabels ascending)

/-- `rank(method := "first")`: ascending rank, ties broken by position. -/
def rankFirst (s : List ℚ) : List ℚ :=
  s.enum.map (fun p =>
    1 + ((s.enum.filter (fun q =>
      decide (q.2 < p.2) || (decide (q.2 = p.2) && decide (q.1 < p.1)))).length : ℚ))

/-- `rfm.fillna(3)` applied to a score column: unassigned scores become 3. -/
def fillna3 (xs : List (Option ℕ)) : List ℕ := xs.map (·.getD 3)

/-- The `R` column after `fillna`: `rfm_score(rfm["Recency"], ascending := True)`. -/
def rScores (d : List Txn) : List ℕ :=
  fillna3 (rfm_score ((rfmBase d).map (fun r => (r.recency : ℚ))) true)

/-- The `F` column after `fillna`:
`rfm_score(rfm["Frequency"].rank(method := "first"), ascending := False)`. -/
def fScores (d : List Txn) : List ℕ :=
  fillna3 (rfm_score (rankFirst ((rfmBase d).map (fun r => (r.frequency : ℚ)))) false)

/-- The `M` column after `fillna`:
`rfm_score(rfm["Monetary"].rank(method := "first"), ascending := False)`. -/
def mScores (d : List Txn) : List ℕ :=
  fillna3 (rfm_score (rankFirst ((rfmBase d).map (·.monetary))) false)

/-- `segment_customer`: the if/elif priority chain over integer scores. -/
def segment_customer (r f m : ℕ) : String :=
  if 4 ≤ r ∧ 4 ≤ f ∧ 4 ≤ m then "Champions"
  else if 4 ≤ f ∧ 4 ≤ m then "Loyal"
  else if 4 ≤ r ∧ f ≤ 2 then "Potential"
  else if r ≤ 2 ∧ 3 ≤ f then "At Risk"
  else if r ≤ 2 ∧ f ≤ 2 then "Lost"
  else "Occasional"

/-- A full RFM table row after scoring and segmentation. -/
structure RfmFull where
  customer : String
  recency : ℤ
  frequency : ℕ
  monetary : ℚ
  r : ℕ
  f : ℕ
  m : ℕ
  segment : String
deriving DecidableEq

/-- Descending-by-`Monetary` insertion step. -/
def insertByMon (x : RfmFull) : List RfmFull → List RfmFull
  | [] => [x]
  | y :: ys => if y.monetary < x.monetary then x :: y :: ys else y :: insertByMon x ys

/-- `rfm.sort_values("Monetary", ascending := False)`. -/
def sortByMonDesc : List RfmFull → List RfmFull
  | [] => []
  | x :: xs => insertByMon x (sortByMonDesc xs)

/-- The final RFM table: scored rows with segments, sorted by `Monetary`
descending. -/
def rfmTable (d : List Txn) : List RfmFull :=
  let base := rfmBase d
  let rs := rScores d
  let fs := fScores d
  let ms := mScores d
  sortByMonDesc ((List.range base.length).map (fun i =>
    let b := base.getD i ⟨"", 0, 0, 0⟩
    let r := rs.getD i 3
    let f := fs.getD i 3
    let m := ms.getD i 3
    { customer := b.customer
      recency := b.recency
      frequency := b.frequency
      monetary := b.monetary
      r := r
      f := f
      m := m
      segment := segment_customer r f m }))

/-- All deterministic pipeline outputs: the RFM table and the aggregate
KPIs (total revenue, transaction count, average ticket, unique customers,
monthly series). -/
def pipelineOutputs (d : List Txn) :
    List RfmFull × ℚ × ℕ × PFloat × ℕ × List ((ℤ × ℤ) × ℚ) :=
  (rfmTable d, total_sales d, transactions d, avg_ticket d,
   unique_customers d, monthly_sales d)

/-! ## Helper definitions for the statements -/

/-- Sum of a float column (`Series.sum` with special values). -/
def pfSum (l : List PFloat) : PFloat := l.foldr padd (.val 0)

/-- The rational values of `Revenue_Pct` when the revenue total is nonzero. -/
def pctsQ (d : List Txn) : List ℚ :=
  (products d).map (fun p => p.revenue / totalRevenue d * 100)

/-- The `Cum_Pct` column is non-decreasing under the float ordering. -/
def cumNonDecreasing (d : List Txn) : Prop :=
  List.Chain' (fun a b => pLe a b = true) (cumPct d)

/-- Modelled from the spec, §4.4: the segmentation rules in priority order,
first match wins. -/
def segmentSpec (r f m : ℕ) : String :=
  if r ≥ 4 ∧ f ≥ 4 ∧ m ≥ 4 then "Champions"
  else if f ≥ 4 ∧ m ≥ 4 then "Loyal"
  else if r ≥ 4 ∧ f ≤ 2 then "Potential"
  else if r ≤ 2 ∧ f ≥ 3 then "At Risk"
  else if r ≤ 2 ∧ f ≤ 2 then "Lost"
  else "Occasional"

/-! ## Helper lemmas -/

theorem pfSum_map_val (l : List ℚ) : pfSum (l.map .val) = .val l.sum := by
  induction l with
  | nil => rfl
  | cons x xs ih =>
    show padd (.val x) (pfSum (xs.map .val)) = .val (x + xs.sum)
    rw [ih, padd]

theorem revenuePct_eq_map_val (d : List Txn) (h : totalRevenue d ≠ 0) :
    revenuePct d = (pctsQ d).map .val := by
  unfold revenuePct pctsQ
  rw [List.map_map]
  refine List.map_congr_left (fun p _ => ?_)
  simp [Function.comp, pdiv, h, pmulC]

theorem sum_map_div_mul {α : Type} (l : List α) (f : α → ℚ) (T : ℚ) :
    (l.map (fun x => f x / T * 100)).sum = (l.map f).sum / T * 100 := by
  induction l with
  | nil => simp
  | cons x xs ih => simp [ih]; ring

theorem cumsumP_map_val (a : ℚ) (l : List ℚ) :
    cumsumP (.val a) (l.map .val) = (cumsumQ a l).map .val := by
  induction l generalizing a with
  | nil => rfl
  | cons x xs ih => simp [cumsumP, cumsumQ, padd, ih]

theorem cumsumP_length (a : PFloat) (l : List PFloat) :
    (cumsumP a l).length = l.length := by
  induction l generalizing a with
  | nil => rfl
  | cons x xs ih => simp [cumsumP, ih]

theorem cumsumQ_length (a : ℚ) (l : List ℚ) :
    (cumsumQ a l).length = l.length := by
  induction l generalizing a with
  | nil => rfl
  | cons x xs ih => simp [cumsumQ, ih]

theorem cumPct_eq_map_val (d : List Txn) (h : totalRevenue d ≠ 0) :
    cumPct d = (cumsumQ 0 (pctsQ d)).map .val := by
  unfold cumPct
  rw [revenuePct_eq_map_val d h]
  exact cumsumP_map_val 0 (pctsQ d)

theorem abcCategory_val (q : ℚ) :
    (abcCategory (.val q) = "A" ↔ q ≤ 80)
    ∧ (abcCategory (.val q) = "B" ↔ 80 < q ∧ q ≤ 95)
    ∧ (abcCategory (.val q) = "C" ↔ 95 < q) := by
  unfold abcCategory
  simp only [pLeC, decide_eq_true_eq]
  split_ifs with h1 h2
  · refine ⟨by simp [h1], ?_, ?_⟩
    · constructor
      · intro hc; exact absurd hc (by decide)
      · intro hc; linarith [hc.1]
    · constructor
      · intro hc; exact absurd hc (by decide)
      · intro hc; linarith
  · refine ⟨?_, by simp [h2, lt_of_not_le h1], ?_⟩
    · constructor
      · intro hc; exact absurd hc (by decide)
      · intro hc; exact absurd hc h1
    · constructor
      · intro hc; exact absurd hc (by decide)
      · intro hc; linarith
  · refine ⟨?_, ?_, by simp [lt_of_not_le h2]⟩
    · constructor
      · intro hc; exact absurd hc (by decide)
      · intro hc; exact absurd hc h1
    · constructor
      · intro hc; exact absurd hc (by decide)
      · intro hc; exact absurd hc.2 h2

/-! ## C4: ABC categories match the cumulative thresholds -/

/-- C4: with positive total revenue, every row of the product table has a
finite (rational) cumulative percentage `q`, its category is `"A"` exactly
when `q ≤ 80`, `"B"` exactly when `80 < q ≤ 95`, `"C"` exactly when
`q > 95`, and every category is one of A, B, C. -/
theorem abc_thresholds (d : List Txn) (h : 0 < totalRevenue d) :
    ∀ row ∈ abcTable d, ∃ q : ℚ, row.cum = .val q
      ∧ (row.category = "A" ↔ q ≤ 80)
      ∧ (row.category = "B" ↔ 80 < q ∧ q ≤ 95)
      ∧ (row.category = "C" ↔ 95 < q)
      ∧ (row.category = "A" ∨ row.category = "B" ∨ row.category = "C") := by
  intro row hrow
  unfold abcTable at hrow
  simp only [List.mem_map, List.mem_range] at hrow
  obtain ⟨i, hi, hrow⟩ := hrow
  have hlen : (cumPct d).length = (products d).length := by
    unfold cumPct revenuePct
    rw [cumsumP_length]
    simp
  have hlen2 : (cumsumQ 0 (pctsQ d)).length = (products d).length := by
    rw [cumsumQ_length]
    unfold pctsQ
    simp
  set q : ℚ := (cumsumQ 0 (pctsQ d)).getD i 0 with hq
  have hcum : (cumPct d).getD i .nan = .val q := by
    rw [cumPct_eq_map_val d (ne_of_gt h)]
    rw [List.getD_eq_getElem?_getD, List.getElem?_map, hq,
      List.getD_eq_getElem?_getD]
    rw [List.getElem?_eq_getElem (hlen2 ▸ hi)]
    rfl
  refine ⟨q, ?_, ?_, ?_, ?_, ?_⟩
  · rw [← hrow, hcum]
  · rw [← hrow]; simp only [hcum]; exact (abcCategory_val q).1
  · rw [← hrow]; simp only [hcum]; exact (abcCategory_val q).2.1
  · rw [← hrow]; simp only [hcum]; exact (abcCategory_val q).2.2
  · rw [← hrow]; simp only [hcum]
    unfold abcCategory
    split_ifs <;> simp

/-- C4 witness: a concrete three-product dataset with revenues 80, 15, 5,
exercising all three categories. -/
theorem abc_thresholds_witness :
    ∃ q : ℚ,
      (⟨"P", 80, .val 80, .val 80, "A"⟩ : AbcRow).cum = .val q
      ∧ ((⟨"P", 80, .val 80, .val 80, "A"⟩ : AbcRow).category = "A" ↔ q ≤ 80)
      ∧ ((⟨"P", 80, .val 80, .val 80, "A"⟩ : AbcRow).category = "B" ↔ 80 < q ∧ q ≤ 95)
      ∧ ((⟨"P", 80, .val 80, .val 80, "A"⟩ : AbcRow).category = "C" ↔ 95 < q)
      ∧ ((⟨"P", 80, .val 80, .val 80, "A"⟩ : AbcRow).category = "A"
        ∨ (⟨"P", 80, .val 80, .val 80, "A"⟩ : AbcRow).category = "B"
        ∨ (⟨"P", 80, .val 80, .val 80, "A"⟩ : AbcRow).category = "C") :=
  abc_thresholds
    [⟨0, 1, "c", "P", 1, 80⟩, ⟨0, 2, "c", "Q", 1, 15⟩, ⟨0, 3, "c", "R", 1, 5⟩]
    (by with_unfolding_all decide)
    ⟨"P", 80, .val 80, .val 80, "A"⟩
    (by with_unfolding_all decide)

theorem dedup_all_eq :
    ∀ (l : List String) (a : String), l ≠ [] → (∀ x ∈ l, x = a) → l.dedup = [a] := by
  intro l
  induction l with
  | nil => intro a hne _; exact absurd rfl hne
  | cons x xs ih =>
    intro a _ h
    have hx : x = a := h x (by simp)
    subst hx
    cases xs with
    | nil => simp
    | cons y ys =>
      have hy : y = x := (h y (by simp)).trans rfl
      have hmem : x ∈ y :: ys := by simp [hy]
      rw [List.dedup_cons_of_mem hmem]
      exact ih x (by simp) (fun z hz => h z (by simp [hz]))

theorem mem_insertByRev (a x : ProductRow) (l : List ProductRow) :
    a ∈ insertByRev x l ↔ a = x ∨ a ∈ l := by
  induction l with
  | nil => simp [insertByRev]
  | cons y ys ih =>
    unfold insertByRev
    split_ifs with hc
    · simp
    · simp [ih]
      tauto

theorem mem_sortByRevDesc (a : ProductRow) (l : List ProductRow) :
    a ∈ sortByRevDesc l ↔ a ∈ l := by
  induction l with
  | nil => simp [sortByRevDesc]
  | cons x xs ih =>
    unfold sortByRevDesc
    rw [mem_insertByRev]
    simp [ih]

/-! ## C10: a single product is classified C, not A -/

/-- C10: the top product is not guaranteed category A; in particular on any
dataset carrying exactly one product (with nonzero revenue total) the sole
product reaches cumulative percentage 100 and is classified `"C"` even
though it accounts for all revenue. -/
theorem abc_single_product (d : List Txn) (p₀ : String) (hne : d ≠ [])
    (hp : ∀ t ∈ d, t.product = p₀) (hr : totalRevenue d ≠ 0) :
    (abcTable d).map (fun r => (r.product, r.cum, r.category)) =
      [(p₀, .val 100, "C")] := by
  have hmapne : d.map (·.product) ≠ [] := by
    simpa using hne
  have hall : ∀ x ∈ d.map (·.product), x = p₀ := by
    intro x hx
    obtain ⟨t, ht, rfl⟩ := List.mem_map.mp hx
    exact hp t ht
  have hded : (d.map (·.product)).dedup = [p₀] := dedup_all_eq _ _ hmapne hall
  have hfil : d.filter (fun t => t.product = p₀) = d := by
    rw [List.filter_eq_self]
    intro t ht
    exact decide_eq_true (hp t ht)
  have hagg : productAgg d =
      [⟨p₀, d.length, (d.map (·.amount)).sum, total_sales d⟩] := by
    unfold productAgg
    rw [hded]
    simp [hfil, total_sales]
  have hprod : products d =
      [⟨p₀, d.length, (d.map (·.amount)).sum, total_sales d⟩] := by
    unfold products
    rw [hagg]
    rfl
  have hT : totalRevenue d = total_sales d := by
    unfold totalRevenue
    rw [hprod]
    simp
  have hTne : total_sales d ≠ 0 := hT ▸ hr
  have hpq : pctsQ d = [100] := by
    unfold pctsQ
    rw [hprod, hT]
    simp only [List.map_cons, List.map_nil]
    rw [div_self hTne]
    norm_num
  have hcum : cumPct d = [.val 100] := by
    rw [cumPct_eq_map_val d hr, hpq]
    simp [cumsumQ]
  simp only [abcTable]
  rw [hprod, hcum]
  simp only [List.length_singleton]
  rw [show List.range 1 = [0] from by decide]
  simp only [List.map_cons, List.map_nil, List.getD_cons_zero]
  norm_num [abcCategory, pLeC]

/-- C10 witness: a one-transaction dataset; its only product takes
cumulative percentage 100 and category C. -/
theorem abc_single_product_witness :
    (abcTable [⟨0, 5, "c9", "Solo", 2, 7⟩]).map
        (fun r => (r.product, r.cum, r.category)) =
      [("Solo", .val 100, "C")] :=
  abc_single_product _ "Solo" (by decide) (by decide)
    (by with_unfolding_all decide)

/-! ## C6: cumulative percentage monotonicity -/

/-- A dataset with a negative-revenue product (positive revenue total). -/
def dNegRev : List Txn :=
  [⟨0, 1, "c1", "P1", 1, 100⟩, ⟨0, 2, "c1", "P2", 1, -50⟩]

/-- C6 counterexample: with a negative-revenue product the sorted `Cum_Pct`
sequence is `[200, 100]`, which decreases — the claim fails for arbitrary
datasets. -/
theorem cumPct_not_monotone_counterexample : ¬ cumNonDecreasing dNegRev := by
  intro h
  unfold cumNonDecreasing at h
  rw [show cumPct dNegRev = [.val 200, .val 100] from by
    with_unfolding_all decide] at h
  rw [List.chain'_cons] at h
  have h1 := h.1
  simp only [pLe, decide_eq_true_eq] at h1
  norm_num at h1

theorem chain'_cumsumQ (l : List ℚ) :
    ∀ acc : ℚ, (∀ q ∈ l, 0 ≤ q) → List.Chain' (· ≤ ·) (cumsumQ acc l) := by
  induction l with
  | nil => intro acc _; simp [cumsumQ]
  | cons x xs ih =>
    intro acc h
    cases xs with
    | nil => simp [cumsumQ]
    | cons y ys =>
      rw [cumsumQ, cumsumQ, List.chain'_cons]
      constructor
      · have : (0:ℚ) ≤ y := h y (by simp)
        linarith
      · have := ih (acc + x) (fun q hq => h q (by simp [hq]))
        rw [cumsumQ] at this
        exact this

theorem chain'_pLe_map_val (l : List ℚ) (h : List.Chain' (· ≤ ·) l) :
    List.Chain' (fun a b => pLe a b = true) (l.map .val) := by
  rw [List.chain'_map]
  exact h.imp (fun {a b} hab => by simp only [pLe, decide_eq_true_eq]; exact hab)

/-- C6 (amended): when every transaction's `Total_Sale` is nonnegative and
the revenue total is positive, the `Cum_Pct` sequence over the
descending-revenue product table is monotonically non-decreasing. -/
theorem cumPct_monotone_of_nonneg (d : List Txn)
    (h0 : ∀ t ∈ d, 0 ≤ t.totalSale) (hT : 0 < totalRevenue d) :
    cumNonDecreasing d := by
  unfold cumNonDecreasing
  rw [cumPct_eq_map_val d (ne_of_gt hT)]
  apply chain'_pLe_map_val
  apply chain'_cumsumQ
  intro q hq
  unfold pctsQ at hq
  obtain ⟨p, hpmem, rfl⟩ := List.mem_map.mp hq
  have hp' : p ∈ productAgg d := by
    unfold products at hpmem
    exact (mem_sortByRevDesc p (productAgg d)).mp hpmem
  have hrev : 0 ≤ p.revenue := by
    unfold productAgg at hp'
    obtain ⟨k, _, rfl⟩ := List.mem_map.mp hp'
    apply List.sum_nonneg
    intro x hx
    obtain ⟨t, ht, rfl⟩ := List.mem_map.mp hx
    exact h0 t (List.mem_of_mem_filter ht)
  have := div_nonneg hrev (le_of_lt hT)
  nlinarith

/-- C6 witness (for the amended claim): a two-product dataset with
nonnegative sales has a non-decreasing `Cum_Pct` sequence. -/
theorem cumPct_monotone_of_nonneg_witness :
    cumNonDecreasing [⟨0, 1, "c", "P", 1, 60⟩, ⟨0, 2, "c", "Q", 1, 40⟩] :=
  cumPct_monotone_of_nonneg _ (by with_unfolding_all decide)
    (by with_unfolding_all decide)

theorem le_foldl_max (l : List ℚ) :
    ∀ a : ℚ, a ≤ l.foldl max a ∧ ∀ x ∈ l, x ≤ l.foldl max a := by
  induction l with
  | nil => intro a; exact ⟨le_refl a, by simp⟩
  | cons y ys ih =>
    intro a
    constructor
    · calc a ≤ max a y := le_max_left a y
        _ ≤ ys.foldl max (max a y) := (ih (max a y)).1
    · intro x hx
      rcases List.mem_cons.mp hx with rfl | hx'
      · calc x ≤ max a x := le_max_right a x
          _ ≤ ys.foldl max (max a x) := (ih (max a x)).1
      · exact (ih (max a y)).2 x hx'

theorem le_listMax (l : List ℚ) (x : ℚ) (hx : x ∈ l) : x ≤ listMax l := by
  cases l with
  | nil => cases hx
  | cons y ys =>
    show x ≤ ys.foldl max y
    rcases List.mem_cons.mp hx with rfl | hx'
    · exact (le_foldl_max ys x).1
    · exact (le_foldl_max ys y).2 x hx'

theorem foldl_max_mem (l : List ℚ) : ∀ a : ℚ, l.foldl max a = a ∨ l.foldl max a ∈ l := by
  induction l with
  | nil => simp
  | cons y ys ih =>
    intro a
    rcases ih (max a y) with h | h
    · rcases max_cases a y with ⟨he, _⟩ | ⟨he, _⟩
      · left; rw [List.foldl_cons, h, he]
      · right; rw [List.foldl_cons, h, he]; exact List.mem_cons_self y ys
    · right; exact List.mem_cons_of_mem y h

theorem listMax_mem (l : List ℚ) (h : l ≠ []) : listMax l ∈ l := by
  cases l with
  | nil => exact absurd rfl h
  | cons y ys =>
    show ys.foldl max y ∈ y :: ys
    rcases foldl_max_mem ys y with he | he
    · rw [he]; exact List.mem_cons_self y ys
    · exact List.mem_cons_of_mem y he

/-! ## C9: recency is at least one day -/

/-- C9: on a non-empty dataset every customer's `Recency` is at least 1:
the reference date is the global maximum sale date plus one day, and a
customer's latest sale date never exceeds the global maximum. -/
theorem recency_at_least_one (d : List Txn) (_hd : d ≠ []) :
    ∀ row ∈ rfmBase d, 1 ≤ row.recency := by
  intro row hrow
  unfold rfmBase at hrow
  obtain ⟨c, hc, hrow⟩ := List.mem_map.mp hrow
  have hcmem : c ∈ d.map (·.customer) := List.mem_dedup.mp hc
  obtain ⟨t, ht, htc⟩ := List.mem_map.mp hcmem
  have htg : t ∈ d.filter (fun t => t.customer = c) :=
    List.mem_filter.mpr ⟨ht, decide_eq_true htc⟩
  have hgne : (d.filter (fun t => t.customer = c)).map (·.saleDate) ≠ [] := by
    simp only [ne_eq, List.map_eq_nil_iff]
    exact List.ne_nil_of_mem htg
  obtain ⟨u, hug, hu⟩ :=
    List.mem_map.mp (listMax_mem _ hgne)
  have hud : u ∈ d := List.mem_of_mem_filter hug
  have hle : listMax ((d.filter (fun t => t.customer = c)).map (·.saleDate)) ≤
      listMax (d.map (·.saleDate)) := by
    rw [← hu]
    exact le_listMax _ _ (List.mem_map_of_mem _ hud)
  rw [← hrow]
  show 1 ≤ Int.floor (reference_date d -
    listMax ((d.filter (fun t => t.customer = c)).map (·.saleDate)))
  rw [Int.le_floor]
  push_cast
  unfold reference_date
  linarith

/-- C9 witness: a one-transaction dataset; its only customer has
`Recency = 1`. -/
theorem recency_at_least_one_witness :
    1 ≤ (⟨"c1", 1, 1, 5⟩ : RfmRow).recency :=
  recency_at_least_one [⟨100, 1, "c1", "P", 1, 5⟩] (by decide) _
    (by with_unfolding_all decide)

theorem assignBins_mem_labels :
    ∀ (edges : List ℚ) (labels : List ℕ) (incl : Bool) (lo x : ℚ) (l : ℕ),
      assignBins incl lo edges labels x = some l → l ∈ labels := by
  intro edges
  induction edges with
  | nil =>
    intro labels incl lo x l h
    cases labels <;> simp [assignBins] at h
  | cons hi es ih =>
    intro labels incl lo x l h
    cases labels with
    | nil => simp [assignBins] at h
    | cons lb ls =>
      unfold assignBins at h
      split_ifs at h with hc
      · cases h
        exact List.mem_cons_self _ _
      · exact List.mem_cons_of_mem _ (ih ls false hi x l h)

theorem binValues_mem (edges : List ℚ) (labels : List ℕ) (incl : Bool)
    (s : List ℚ) (o : Option ℕ) (ho : o ∈ binValues edges labels incl s) :
    o = none ∨ ∃ l ∈ labels, o = some l := by
  unfold binValues at ho
  cases edges with
  | nil =>
    obtain ⟨_, _, rfl⟩ := List.mem_map.mp ho
    exact Or.inl rfl
  | cons e0 rest =>
    obtain ⟨x, _, rfl⟩ := List.mem_map.mp ho
    cases h : assignBins incl e0 rest labels x with
    | none => exact Or.inl rfl
    | some l => exact Or.inr ⟨l, assignBins_mem_labels rest labels incl e0 x l h, rfl⟩

theorem qcut_mem (s : List ℚ) (labels : List ℕ) (r : List (Option ℕ))
    (hr : qcut s labels = .ok r) (o : Option ℕ) (ho : o ∈ r) :
    o = none ∨ ∃ l ∈ labels, o = some l := by
  unfold qcut at hr
  by_cases h1 : s = []
  · rw [if_pos h1] at hr
    cases hr
    cases ho
  · rw [if_neg h1] at hr
    by_cases h2 : labels.length ≠ (qcutEdges s).dedup.length - 1
    · rw [if_pos h2] at hr
      cases hr
    · rw [if_neg h2] at hr
      cases hr
      exact binValues_mem _ _ _ _ o ho

theorem cut_mem (s : List ℚ) (labels : List ℕ) (o : Option ℕ)
    (ho : o ∈ cut s labels) : o = none ∨ ∃ l ∈ labels, o = some l := by
  unfold cut at ho
  split_ifs at ho with h1
  · cases ho
  · exact binValues_mem _ _ _ _ o ho

theorem rfm_score_mem (series : List ℚ) (asc : Bool) (o : Option ℕ)
    (ho : o ∈ rfm_score series asc) :
    o = none ∨ ∃ l ∈ scoreLabels asc, o = some l := by
  unfold rfm_score at ho
  cases hq : qcut series (scoreLabels asc) with
  | ok r =>
    rw [hq] at ho
    exact qcut_mem series (scoreLabels asc) r hq o ho
  | error e =>
    rw [hq] at ho
    exact cut_mem series (scoreLabels asc) o ho

/-! ## C2: all RFM scores lie in 1..5 with no missing values -/

/-- C2: for every dataset, every `R`, `F` and `M` score produced by the
quantile-or-equal-width binning followed by the neutral fill is an integer
in `{1,2,3,4,5}`; in particular no score is missing after `fillna(3)`. -/
theorem rfm_scores_in_range (d : List Txn) (s : ℕ)
    (h : s ∈ rScores d ∨ s ∈ fScores d ∨ s ∈ mScores d) :
    s ∈ ([1, 2, 3, 4, 5] : List ℕ) := by
  have key : ∀ (series : List ℚ) (asc : Bool),
      s ∈ fillna3 (rfm_score series asc) → s ∈ ([1, 2, 3, 4, 5] : List ℕ) := by
    intro series asc hs
    obtain ⟨o, ho, rfl⟩ := List.mem_map.mp hs
    rcases rfm_score_mem series asc o ho with rfl | ⟨l, hl, rfl⟩
    · decide
    · show l ∈ ([1, 2, 3, 4, 5] : List ℕ)
      cases asc <;> simp [scoreLabels] at hl <;> simp <;> omega
  rcases h with h | h | h
  · exact key _ _ h
  · exact key _ _ h
  · exact key _ _ h

/-- C2 witness: on a one-transaction dataset the (R, F, M) columns are
`([3], [3], [3])`, and 3 lies in 1..5. -/
theorem rfm_scores_in_range_witness :
    (3 : ℕ) ∈ ([1, 2, 3, 4, 5] : List ℕ) :=
  rfm_scores_in_range [⟨100, 1, "c1", "P1", 2, 50⟩] 3
    (Or.inl (by with_unfolding_all decide))

/-! ## C5: quantile binning with equal-width fallback and neutral default -/

/-- C5: scoring first attempts the 5-quantile partition; exactly when that
attempt raises the value-range `ValueError` it falls back to equal-width
binning of the same series with the same labels (`[5,4,3,2,1]` ascending
for Recency, `[1,2,3,4,5]` for Frequency/Monetary); after both attempts
`fillna(3)` turns any still-unassigned score into the neutral 3 and keeps
every assigned score. -/
theorem rfm_score_fallback_policy (series : List ℚ) (ascending : Bool) :
    (∀ r, qcut series (scoreLabels ascending) = Except.ok r →
      rfm_score series ascending = r)
    ∧ (∀ e, qcut series (scoreLabels ascending) = Except.error e →
      rfm_score series ascending = cut series (scoreLabels ascending))
    ∧ scoreLabels true = [5, 4, 3, 2, 1]
    ∧ scoreLabels false = [1, 2, 3, 4, 5]
    ∧ ∀ i : ℕ, i < (rfm_score series ascending).length →
        ((rfm_score series ascending).getD i none = none →
          (fillna3 (rfm_score series ascending)).getD i 0 = 3)
        ∧ ∀ l : ℕ, (rfm_score series ascending).getD i none = some l →
          (fillna3 (rfm_score series ascending)).getD i 0 = l := by
  refine ⟨?_, ?_, rfl, rfl, ?_⟩
  · intro r hr
    unfold rfm_score
    rw [hr]
  · intro e he
    unfold rfm_score
    rw [he]
  · intro i hi
    have hgd : (fillna3 (rfm_score series ascending)).getD i 0 =
        ((rfm_score series ascending).getD i none).getD 3 := by
      unfold fillna3
      rw [List.getD_eq_getElem?_getD, List.getElem?_map,
        List.getD_eq_getElem?_getD, List.getElem?_eq_getElem hi]
      rfl
    constructor
    · intro hnone
      rw [hgd, hnone]
      rfl
    · intro l hl
      rw [hgd, hl]
      rfl

/-- C5 witness: a constant series has duplicate quantile edges, so `qcut`
raises and the score comes from the equal-width fallback. -/
theorem rfm_score_fallback_policy_witness :
    rfm_score [0, 0] true = cut [0, 0] (scoreLabels true) :=
  (rfm_score_fallback_policy [0, 0] true).2.1
    "Bin labels must be one fewer than the number of bin edges"
    (by with_unfolding_all rfl)

/-! ## C8: the pipeline is deterministic -/

/-- C8: the pipeline is a pure function of the input dataset: any two runs
on identical input produce identical RFM tables and identical aggregate
KPIs (total revenue, transaction count, average ticket, unique customers,
monthly series). -/
theorem pipeline_deterministic (d₁ d₂ : List Txn) (h : d₁ = d₂) :
    pipelineOutputs d₁ = pipelineOutputs d₂ := by
  rw [h]

/-- C8 witness: two runs on the same concrete dataset agree. -/
theorem pipeline_deterministic_witness :
    pipelineOutputs [⟨0, 1, "c", "P", 1, 10⟩] =
      pipelineOutputs [⟨0, 1, "c", "P", 1, 10⟩] :=
  pipeline_deterministic _ _ rfl

/-! ## C1: zero total revenue is not an explicit error -/

/-- A dataset whose `Total_Sale` values sum to zero across all products. -/
def dZeroTotal : List Txn :=
  [⟨100, 1, "c", "P", 1, 0⟩, ⟨100, 2, "c", "Q", 1, 0⟩]

/-- C1 (code bug evidence): on a dataset with zero total revenue the ABC
computation — a total function here exactly because pandas float division
by zero raises no exception — silently yields `NaN` revenue percentages,
`NaN` cumulative percentages and category `"C"` for every product, instead
of the explicit division-by-zero failure the spec requires. -/
theorem abc_zero_total_silently_nan :
    abcTable dZeroTotal =
      [⟨"Q", 0, .nan, .nan, "C"⟩, ⟨"P", 0, .nan, .nan, "C"⟩] := by
  with_unfolding_all decide

/-! ## C3: segmentation is the stated priority rule chain -/

/-- C3: `segment_customer` is a pure function of `(R, F, M)` that agrees
with the spec's priority-ordered rule list everywhere, and maps
`(5,5,5)` to Champions, `(1,1,1)` to Lost, `(5,1,5)` to Potential and
`(3,3,3)` to Occasional. -/
theorem segment_customer_matches_spec :
    (∀ r f m : ℕ, segment_customer r f m = segmentSpec r f m)
    ∧ segment_customer 5 5 5 = "Champions"
    ∧ segment_customer 1 1 1 = "Lost"
    ∧ segment_customer 5 1 5 = "Potential"
    ∧ segment_customer 3 3 3 = "Occasional" :=
  ⟨fun _ _ _ => rfl, by decide, by decide, by decide, by decide⟩

/-! ## C7: revenue percentages sum to 100 -/

/-- C7: for every dataset with nonzero total revenue, the `Revenue_Pct`
column sums to exactly 100 (exact in rational arithmetic). -/
theorem revenuePct_sums_to_100 (d : List Txn) (h : totalRevenue d ≠ 0) :
    pfSum (revenuePct d) = .val 100 := by
  rw [revenuePct_eq_map_val d h, pfSum_map_val]
  unfold pctsQ
  rw [sum_map_div_mul (products d) (·.revenue) (totalRevenue d)]
  rw [show ((products d).map (·.revenue)).sum = totalRevenue d from rfl]
  rw [div_self h]
  norm_num

/-- C7 witness: a concrete two-product dataset with total revenue 80. -/
theorem revenuePct_sums_to_100_witness :
    pfSum (revenuePct [⟨0, 1, "c", "P", 1, 30⟩, ⟨0, 2, "c", "Q", 1, 50⟩]) =
      .val 100 :=
  revenuePct_sums_to_100 _ (by with_unfolding_all decide)

end SalesAnalysis
